import Mathlib

/-!
Verification of the notbot presence-watcher core.

The Go sources are shallowly embedded here.  Go strings are modelled as
their UTF-8 byte sequences (`List Nat`), because the source indexes and
slices strings at the byte level (`s[:1]`, `s[1:]`).  Go maps used by the
sources are modelled as association lists with map semantics (lookup,
in-place update, delete).  Code paths that panic in Go (slicing an empty
string) are modelled with `Option`: `none` marks the panic.
-/

/-- A Go string: its UTF-8 byte sequence. -/
abbrev GoStr := List Nat

/-- UTF-8 bytes of the zero-width-space character U+200B (the literal
`"​"` appearing in `UserListZWS` of at.go and spaceapi.go and in
`JitsiClient.Run` of jitsi.go). -/
def zwsBytes : GoStr := [226, 128, 139]

/-- The obfuscation expression `s[:1] + "​" + s[1:]` from at.go line 43,
spaceapi.go line 70 and jitsi.go lines 163 and 175.  Go slices strings by
bytes, so `s[:1]` is the first byte; on the empty string the slice `s[:1]`
panics (index out of range), modelled as `none`. -/
def obfuscateZWS : GoStr → Option GoStr
  | [] => none
  | b :: rest => some (b :: (zwsBytes ++ rest))

/-- The loop bodies of `atResponse.UserListZWS` (at.go lines 41 to 48) and
`spaceApiResponse.UserListZWS` (spaceapi.go lines 67 to 76): obfuscate each
identity string in order, appending to `ret`.  A panic on any element
(empty identity) aborts the whole computation (`none`). -/
def obfuscateList : List GoStr → Option (List GoStr)
  | [] => some []
  | s :: rest =>
    match obfuscateZWS s, obfuscateList rest with
    | some z, some zs => some (z :: zs)
    | _, _ => none

/-- Key membership in the Go map `mb` built by `listSubstract` from its
second argument: `mb[x]` is set for exactly the elements of `b`. -/
def memberSet (b : List GoStr) (x : GoStr) : Bool :=
  b.any (fun y => decide (y = x))

/-- `listSubstract` from helpers.go lines 10 to 24 (the identical function
appears in notifier.go lines 52 to 66; at.go and spaceapi.go call it under
the name `listSubtract`): build the member set `mb` of `b`, then walk `a`
appending to `ret` every element not found in `mb`. -/
def listSubstract (a b : List GoStr) : List GoStr :=
  a.foldl (fun ret x => if memberSet b x then ret else ret ++ [x]) []

/-- Byte-wise lexicographic comparison of Go strings, the order used by
`sort.Strings` (spaceapi.go line 105). -/
def goStrLe : GoStr → GoStr → Bool
  | [], _ => true
  | _ :: _, [] => false
  | x :: xs, y :: ys => if x < y then true else if y < x then false else goStrLe xs ys

/-- The sorted-order relation on Go strings as a Prop. -/
def GoStrLeP (a b : GoStr) : Prop := goStrLe a b = true

instance goStrLePDecidable : DecidableRel GoStrLeP :=
  fun a b => inferInstanceAs (Decidable (goStrLe a b = true))

/-- `sort.Strings(alsoThere)` from spaceapi.go line 105: sorts in byte-wise
lexicographic order (modelled extensionally by insertion sort, which
produces the same sorted permutation). -/
def sortStrings (l : List GoStr) : List GoStr :=
  List.insertionSort GoStrLeP l

/-- One diff notice of a polling watcher.  The NOTICE text written in
at.go lines 72 to 87 and spaceapi.go lines 107 to 122 is the concatenation
of an " arrived: [...]" segment (present iff `arrived` is non-empty), a
" left: [...]" segment (present iff `left` is non-empty) and an
" also there: [...]" segment (present iff `alsoThere` is non-empty). -/
structure DiffNotice where
  arrived : List GoStr
  left : List GoStr
  alsoThere : List GoStr
deriving DecidableEq

/-- One timer tick of `atMonitor.Run` (at.go lines 57 to 89) after a
successful fetch and decode: `prev` is `a.previousUserList`, `cur` is
`atHS.UserListZWS()`.  Returns the notice written (if any) and the new
value of `a.previousUserList`.  Note the at watcher does not sort
`alsoThere`. -/
def atTick (prev cur : List GoStr) : Option DiffNotice × List GoStr :=
  let arrived := listSubstract cur prev
  let left := listSubstract prev cur
  let alsoThere := listSubstract prev left
  if arrived ≠ [] ∨ left ≠ [] then
    (some ⟨arrived, left, alsoThere⟩, cur)
  else
    (none, prev)

/-- One timer tick of `spaceApiClient.Run` (spaceapi.go lines 91 to 124)
after a successful fetch and decode: `prev` is `s.users`, `cur` is
`response.UserListZWS()`.  Identical to `atTick` except that `alsoThere`
is sorted with `sort.Strings` before rendering. -/
def spaceApiTick (prev cur : List GoStr) : Option DiffNotice × List GoStr :=
  let arrived := listSubstract cur prev
  let left := listSubstract prev cur
  let alsoThere := sortStrings (listSubstract prev left)
  if arrived ≠ [] ∨ left ≠ [] then
    (some ⟨arrived, left, alsoThere⟩, cur)
  else
    (none, prev)

/-- Failure of the fetch-and-decode step of a polling tick: either
`httpGet` failed or `json.Unmarshal` failed (at.go lines 94 to 108,
spaceapi.go lines 129 to 143). -/
inductive FetchError where
  | transport
  | decode
deriving DecidableEq

/-- A full tick of `atMonitor.Run`, including the fetch outcome.  On fetch
or decode failure the code logs and leaves the select (`break`), touching
nothing (at.go lines 61 to 64).  On success `current := atHS.UserListZWS()`
is computed (which panics, `none`, if some `Login` is empty) and the diff
is taken.  `logins` stands for the decoded `Users[].Login` list. -/
def atTickRun (prev : List GoStr) (fetched : Except FetchError (List GoStr)) :
    Option (Option DiffNotice × List GoStr) :=
  match fetched with
  | Except.error _ => some (none, prev)
  | Except.ok logins =>
    match obfuscateList logins with
    | none => none
    | some cur => some (atTick prev cur)

/-- A full tick of `spaceApiClient.Run`, including the fetch outcome
(spaceapi.go lines 95 to 98).  `rooms` stands for the decoded
`sensors.people_now_present[].names[]` lists; `UserListZWS` iterates rooms
then names, appending, which is the flattened traversal. -/
def spaceApiTickRun (prev : List GoStr) (fetched : Except FetchError (List (List GoStr))) :
    Option (Option DiffNotice × List GoStr) :=
  match fetched with
  | Except.error _ => some (none, prev)
  | Except.ok rooms =>
    match obfuscateList rooms.flatten with
    | none => none
    | some cur => some (spaceApiTick prev cur)

/-- UTF-8 bytes of the string literal `"unavailable"` compared against
`v.Type` in jitsi.go line 171. -/
def unavailableBytes : GoStr := [117, 110, 97, 118, 97, 105, 108, 97, 98, 108, 101]

/-- The fields of a parsed presence stanza that `JitsiClient.Run` consumes:
`v.Type`, `v.Nick.Text` and `v.X.Item.Jid` (jitsi.go lines 153 to 182). -/
structure JitsiStanza where
  typ : GoStr
  nick : GoStr
  jid : GoStr
deriving DecidableEq

/-- A NOTICE written by the jitsi watcher: `"jitsi: +nickZws"` on join,
`"jitsi: -nickZws"` on leave (jitsi.go lines 164 and 176). -/
inductive JitsiNotice where
  | arrived (nickZws : GoStr)
  | left (nickZws : GoStr)
deriving DecidableEq

/-- The membership table `j.users : map[jid]nick` of `JitsiClient`,
modelled as an association list with map semantics. -/
abbrev JitsiUsers := List (GoStr × GoStr)

/-- Map lookup `j.users[jid]`. -/
def usersFind : JitsiUsers → GoStr → Option GoStr
  | [], _ => none
  | (k, v) :: rest, j => if k = j then some v else usersFind rest j

/-- Map assignment `j.users[jid] = nick` (insert or update in place). -/
def usersInsert : JitsiUsers → GoStr → GoStr → JitsiUsers
  | [], j, n => [(j, n)]
  | (k, v) :: rest, j, n => if k = j then (j, n) :: rest else (k, v) :: usersInsert rest j n

/-- Map deletion `delete(j.users, jid)`. -/
def usersErase : JitsiUsers → GoStr → JitsiUsers
  | [], _ => []
  | (k, v) :: rest, j => if k = j then rest else (k, v) :: usersErase rest j

/-- The trailing `if v.Type == "unavailable"` block of the streaming loop
(jitsi.go lines 171 to 182), reached by every stanza the first block did
not consume with `continue`: on a known jid, delete the record and write
one left notice rendering the obfuscated stored nick. -/
def jitsiStepUnavail (users : JitsiUsers) (v : JitsiStanza) :
    Option (JitsiUsers × List JitsiNotice) :=
  if v.typ = unavailableBytes then
    if v.jid ≠ [] then
      match usersFind users v.jid with
      | some knownNick =>
        match obfuscateZWS knownNick with
        | some z => some (usersErase users v.jid, [JitsiNotice.left z])
        | none => none
      | none => some (users, [])
    else some (users, [])
  else some (users, [])

/-- Processing of one successfully parsed presence stanza by the streaming
loop of `JitsiClient.Run` (jitsi.go lines 153 to 182).  The first block
handles a non-empty nick with a non-empty jid: a known jid with a changed
nick is renamed in place (`continue`, no notice); an unknown jid is
recorded and an arrived notice is written (`continue`).  Every other path,
including a known jid whose stored nick equals the new one, falls through
to the `unavailable` check. -/
def jitsiStep (users : JitsiUsers) (v : JitsiStanza) :
    Option (JitsiUsers × List JitsiNotice) :=
  if v.nick ≠ [] then
    if v.jid ≠ [] then
      match usersFind users v.jid with
      | some knownNick =>
        if knownNick ≠ v.nick then
          some (usersInsert users v.jid v.nick, [])
        else
          jitsiStepUnavail users v
      | none =>
        match obfuscateZWS v.nick with
        | some z => some (usersInsert users v.jid v.nick, [JitsiNotice.arrived z])
        | none => none
    else jitsiStepUnavail users v
  else jitsiStepUnavail users v

/-- Processing of a sequence of parsed stanzas by the streaming loop,
collecting the notices written in order. -/
def jitsiRunSteps (users : JitsiUsers) : List JitsiStanza → Option (JitsiUsers × List JitsiNotice)
  | [] => some (users, [])
  | v :: vs =>
    match jitsiStep users v with
    | none => none
    | some (u, ns) =>
      match jitsiRunSteps u vs with
      | none => none
      | some (u2, ns2) => some (u2, ns ++ ns2)

/-- Errors of the body-reading step of `httpGet`: `io.EOF` (no bytes were
available at all) and `io.ErrUnexpectedEOF` (fewer than requested). -/
inductive ReadError where
  | eofErr
  | unexpectedEOF
deriving DecidableEq

/-- The 5 MiB response cap of helpers.go line 48. -/
def maxBytesCap : Nat := 5 * 1024 * 1024

/-- `io.ReadFull(r, buf)` reading from a source holding `src` bytes into a
buffer of length `bufLen`: fills the buffer when enough bytes are
available, returns `io.EOF` when no byte was read, and
`io.ErrUnexpectedEOF` when some but not all requested bytes were read. -/
def goReadFull (src : List Nat) (bufLen : Nat) : List Nat × Option ReadError :=
  if bufLen ≤ src.length then (src.take bufLen, none)
  else if src.length = 0 then ([], some ReadError.eofErr)
  else (src, some ReadError.unexpectedEOF)

/-- The body-reading logic of `httpGet` (helpers.go lines 47 to 58) on a
response body of `body` bytes: `io.ReadFull` into a buffer of exactly
`maxBytesCap` bytes through `http.MaxBytesReader`.  Because the buffer
length equals the cap, `ReadFull` never requests a byte past the cap and
the limiter never trips, so the limited reader behaves as the plain body.
`ErrUnexpectedEOF` keeps the bytes read (`buf = buf[:i]`); any other
non-nil error is returned to the caller. -/
def httpGet (body : List Nat) : Except ReadError (List Nat) :=
  match goReadFull body maxBytesCap with
  | (buf, some ReadError.unexpectedEOF) => Except.ok buf
  | (_, some e) => Except.error e
  | (buf, none) => Except.ok buf

theorem memberSet_iff_mem (b : List GoStr) (x : GoStr) : memberSet b x = true ↔ x ∈ b := by
  simp [memberSet, List.any_eq_true]

theorem foldl_skip_filter (p : GoStr → Bool) :
    ∀ a acc : List GoStr,
      a.foldl (fun ret x => if p x then ret else ret ++ [x]) acc =
        acc ++ a.filter (fun x => !(p x)) := by
  intro a
  induction a with
  | nil => intro acc; simp
  | cons x xs ih =>
    intro acc
    by_cases h : p x = true
    · simp [List.foldl_cons, h, ih]
    · simp [List.foldl_cons, h, ih, List.filter_cons]

theorem listSubstract_eq_filter (a b : List GoStr) :
    listSubstract a b = a.filter (fun x => !(memberSet b x)) := by
  simpa using foldl_skip_filter (memberSet b) a []

theorem memberSet_eq_false_iff (b : List GoStr) (x : GoStr) :
    memberSet b x = false ↔ x ∉ b := by
  rw [← memberSet_iff_mem]
  simp

theorem mem_listSubstract {x : GoStr} {a b : List GoStr} :
    x ∈ listSubstract a b ↔ x ∈ a ∧ x ∉ b := by
  rw [listSubstract_eq_filter]
  simp [List.mem_filter, Bool.not_eq_true', memberSet_eq_false_iff]

/-- C5: `listSubstract` computes the set difference keeping the order of
appearance in its first argument: it equals the filter of `a` on absence
from `b` (so `arrived` and `left` are the elements of `current` absent
from `previous` and conversely, in order of appearance), and empty inputs
are valid and yield empty outputs with no error path. -/
theorem listSubstract_diff_spec :
    (∀ a b : List GoStr, listSubstract a b = a.filter (fun x => !(memberSet b x))) ∧
    (∀ (x : GoStr) (a b : List GoStr), x ∈ listSubstract a b ↔ x ∈ a ∧ x ∉ b) ∧
    (∀ b : List GoStr, listSubstract [] b = []) ∧
    (∀ a : List GoStr, listSubstract a [] = a) := by
  refine ⟨listSubstract_eq_filter, fun x a b => mem_listSubstract, fun b => rfl, fun a => ?_⟩
  rw [listSubstract_eq_filter]
  simp [memberSet]

/-- C2: with `arrived = Diff(A,B).arrived`, `left = Diff(A,B).left` and
`stillPresent` the elements of `B` not in `left`, the three lists are
pairwise disjoint, `arrived` with `stillPresent` equals `A` as a set, and
`left` with `stillPresent` equals `B` as a set. -/
theorem diff_partition (A B : List GoStr) :
    (∀ x, ¬(x ∈ listSubstract A B ∧ x ∈ listSubstract B A)) ∧
    (∀ x, ¬(x ∈ listSubstract A B ∧ x ∈ listSubstract B (listSubstract B A))) ∧
    (∀ x, ¬(x ∈ listSubstract B A ∧ x ∈ listSubstract B (listSubstract B A))) ∧
    (∀ x, x ∈ A ↔ (x ∈ listSubstract A B ∨ x ∈ listSubstract B (listSubstract B A))) ∧
    (∀ x, x ∈ B ↔ (x ∈ listSubstract B A ∨ x ∈ listSubstract B (listSubstract B A))) := by
  refine ⟨?_, ?_, ?_, ?_, ?_⟩ <;> intro x <;> simp only [mem_listSubstract] <;> tauto

/-- C10: on a tick whose fetch and decode succeed, the stored snapshot is
replaced exactly when a notice is written, and then it becomes the current
fetched snapshot; on an empty diff it is left unchanged.  This holds for
both polling watchers. -/
theorem tick_snapshot_replacement (prev cur : List GoStr) :
    ((atTick prev cur).2 = if ((atTick prev cur).1).isSome then cur else prev) ∧
    ((spaceApiTick prev cur).2 = if ((spaceApiTick prev cur).1).isSome then cur else prev) := by
  constructor
  · by_cases h : listSubstract cur prev ≠ [] ∨ listSubstract prev cur ≠ [] <;> simp [atTick, h]
  · by_cases h : listSubstract cur prev ≠ [] ∨ listSubstract prev cur ≠ [] <;>
      simp [spaceApiTick, h]

/-- C7: on a tick whose fetch or decode fails, the tick is skipped: no
notice is produced and the stored snapshot is left unchanged, for both
polling watchers. -/
theorem tick_error_skips (p q : List GoStr) (e e2 : FetchError) :
    atTickRun p (Except.error e) = some (none, p) ∧
    spaceApiTickRun q (Except.error e2) = some (none, q) := ⟨rfl, rfl⟩

/-- C9 failing input: the callers do not validate identity strings.  A
successfully decoded snapshot whose identity list contains the empty
string reaches `UserListZWS`, where the slice `Login[:1]` panics, modelled
as `none`: the obfuscation step does fail on such snapshots. -/
theorem obfuscation_empty_login_panics (p q : List GoStr) :
    obfuscateZWS [] = none ∧
    atTickRun p (Except.ok [[]]) = none ∧
    spaceApiTickRun q (Except.ok [[[]]]) = none := ⟨rfl, rfl, rfl⟩

theorem goStrLe_total : ∀ a b : GoStr, goStrLe a b = true ∨ goStrLe b a = true := by
  intro a
  induction a with
  | nil => intro b; left; cases b <;> rfl
  | cons x xs ih =>
    intro b
    cases b with
    | nil => right; rfl
    | cons y ys =>
      simp only [goStrLe]
      rcases Nat.lt_trichotomy x y with h | h | h
      · left; simp [h]
      · subst h
        simpa [Nat.lt_irrefl] using ih ys
      · right; simp [h]

theorem goStrLe_trans : ∀ a b c : GoStr, goStrLe a b = true → goStrLe b c = true →
    goStrLe a c = true := by
  intro a
  induction a with
  | nil => intro b c _ _; cases c <;> rfl
  | cons x xs ih =>
    intro b c hab hbc
    cases b with
    | nil => simp [goStrLe] at hab
    | cons y ys =>
      cases c with
      | nil => simp [goStrLe] at hbc
      | cons z zs =>
        simp only [goStrLe] at hab hbc ⊢
        by_cases hxy : x < y
        · by_cases hyz : y < z
          · simp [Nat.lt_trans hxy hyz]
          · by_cases hzy : z < y
            · simp [hyz, hzy] at hbc
            · have hyz2 : y = z := by omega
              subst hyz2
              simp [hxy]
        · by_cases hyx : y < x
          · simp [hxy, hyx] at hab
          · have hxy2 : x = y := by omega
            subst hxy2
            simp [hxy] at hab
            by_cases hxz : x < z
            · simp [hxz]
            · by_cases hzx : z < x
              · simp [hxz, hzx] at hbc
              · simp [hxz, hzx] at hbc ⊢
                exact ih ys zs hab hbc

instance : IsTotal GoStr GoStrLeP := ⟨goStrLe_total⟩

instance : IsTrans GoStr GoStrLeP := ⟨fun a b c => goStrLe_trans a b c⟩

/-- C4 counterexample: a diff cycle of the check-in watcher with previous
snapshot [b, a] and fetched snapshot [b, a, c] emits a notice whose
also-there segment holds [b, a], which is not sorted lexicographically
(b comes before a).  Only the spaceAPI watcher sorts; at.go does not call
sort.Strings. -/
theorem at_alsoThere_unsorted_counterexample :
    (atTick [[98], [97]] [[98], [97], [99]]).1 = some ⟨[[99]], [], [[98], [97]]⟩ ∧
    ¬ List.Pairwise GoStrLeP [[98], [97]] := by decide

/-- C4 amended: the spaceAPI watcher emits the stillPresent list sorted
lexicographically in its also-there segment (and the segment holds exactly
the elements of previous not in left); the check-in watcher emits the
stillPresent list in its order of appearance in the previous snapshot,
without sorting. -/
theorem alsoThere_sorted_amended (prev cur : List GoStr) (n : DiffNotice) :
    ((spaceApiTick prev cur).1 = some n →
      List.Pairwise GoStrLeP n.alsoThere ∧
      (∀ x, x ∈ n.alsoThere ↔ x ∈ listSubstract prev (listSubstract prev cur))) ∧
    ((atTick prev cur).1 = some n →
      n.alsoThere = listSubstract prev (listSubstract prev cur)) := by
  constructor
  · intro h
    by_cases hc : listSubstract cur prev ≠ [] ∨ listSubstract prev cur ≠ []
    · simp only [spaceApiTick, hc, if_pos, Option.some.injEq] at h
      subst h
      refine ⟨List.sorted_insertionSort GoStrLeP _, fun x => ?_⟩
      simp [sortStrings, List.mem_insertionSort]
    · simp [spaceApiTick, hc] at h
  · intro h
    by_cases hc : listSubstract cur prev ≠ [] ∨ listSubstract prev cur ≠ []
    · simp only [atTick, hc, if_pos, Option.some.injEq] at h
      subst h
      rfl
    · simp [atTick, hc] at h

/-- C4 witness: on the concrete spaceAPI cycle with previous [b, a] and
current [b, a, c], the emitted also-there segment [a, b] is sorted. -/
theorem alsoThere_sorted_amended_witness :
    List.Pairwise GoStrLeP (DiffNotice.alsoThere ⟨[[99]], [], [[97], [98]]⟩) := by
  have h := (alsoThere_sorted_amended [[98], [97]] [[98], [97], [99]]
    ⟨[[99]], [], [[97], [98]]⟩).1 (by decide)
  exact h.1

/-- C3 counterexample: [197, 129] is the UTF-8 encoding of a string of
exactly one character, U+0141.  The claim says obfuscating a
single-character string yields that character followed by the zero-width
space with no trailing content, i.e. [197, 129] ++ zwsBytes; the code
slices at the first byte instead, splitting the character around the
zero-width-space bytes. -/
theorem obfuscate_first_char_counterexample :
    obfuscateZWS [197, 129] = some [197, 226, 128, 139, 129] ∧
    [197, 226, 128, 139, 129] ≠ [197, 129] ++ zwsBytes := by decide

/-- C3 amended: the obfuscation inserts the zero-width-space bytes
immediately after the first BYTE of the non-empty string (which is the
first character exactly when that character is ASCII); a one-byte string
yields that byte followed by the zero-width space with no trailing
content, and two distinct strings sharing their first byte obfuscate to
distinct results. -/
theorem obfuscate_first_byte (s t : GoStr) (hs : s ≠ []) (ht : t ≠ []) :
    obfuscateZWS s = some (s.take 1 ++ zwsBytes ++ s.drop 1) ∧
    (s.head? = t.head? → s ≠ t → obfuscateZWS s ≠ obfuscateZWS t) := by
  cases s with
  | nil => exact absurd rfl hs
  | cons a as =>
    cases t with
    | nil => exact absurd rfl ht
    | cons b bs =>
      refine ⟨rfl, fun hh hne he => hne ?_⟩
      simp only [List.head?_cons, Option.some.injEq] at hh
      subst hh
      simp only [obfuscateZWS, zwsBytes, Option.some.injEq, List.cons.injEq,
        List.cons_append, List.nil_append, true_and] at he
      rw [he]

/-- C3 witness: obfuscating the one-byte string "a" and the pair "ab",
"ac" of distinct strings sharing their first byte. -/
theorem obfuscate_first_byte_witness :
    obfuscateZWS [97] = some [97, 226, 128, 139] ∧
    obfuscateZWS [97, 98] ≠ obfuscateZWS [97, 99] := by
  constructor
  · have h := (obfuscate_first_byte [97] [97] (by decide) (by decide)).1
    simpa [zwsBytes] using h
  · exact (obfuscate_first_byte [97, 98] [97, 99] (by decide) (by decide)).2
      (by decide) (by decide)

/-- C6 counterexample: the empty response body is at most 5 MiB, yet
httpGet does not return it without error: io.ReadFull returns io.EOF when
no byte was read, which httpGet surfaces as an error to the caller. -/
theorem httpGet_empty_body_counterexample :
    httpGet [] = Except.error ReadError.eofErr ∧ httpGet [] ≠ Except.ok [] := by
  refine ⟨rfl, fun h => ?_⟩
  have h2 : Except.error ReadError.eofErr = (Except.ok [] : Except ReadError (List Nat)) :=
    (rfl : httpGet [] = Except.error ReadError.eofErr).symm.trans h
  exact Except.noConfusion h2

/-- C6 amended: a non-empty body of at most 5 MiB is returned whole
without error; a body exceeding 5 MiB (for example 5 MiB + 1 byte) is
truncated to its first 5 MiB without error; only the empty body is
surfaced as an io.EOF error rather than returned. -/
theorem httpGet_cap_amended (body : List Nat) :
    (1 ≤ body.length → body.length ≤ maxBytesCap → httpGet body = Except.ok body) ∧
    (maxBytesCap < body.length → httpGet body = Except.ok (body.take maxBytesCap)) := by
  constructor
  · intro h1 h2
    rcases Nat.lt_or_ge body.length maxBytesCap with h | h
    · have hc : ¬ maxBytesCap ≤ body.length := by omega
      have hz : ¬ body.length = 0 := by omega
      simp [httpGet, goReadFull, hc, hz]
    · have hc : maxBytesCap ≤ body.length := h
      simp [httpGet, goReadFull, hc, List.take_of_length_le h2]
  · intro h
    have hc : maxBytesCap ≤ body.length := Nat.le_of_lt h
    simp [httpGet, goReadFull, hc]

/-- C6 witness: a one-byte body comes back whole without error; a body of
exactly 5 MiB + 1 zero bytes comes back as its first 5 MiB without
error. -/
theorem httpGet_cap_amended_witness :
    httpGet [7] = Except.ok [7] ∧
    httpGet (List.replicate (maxBytesCap + 1) 0) =
      Except.ok (List.replicate maxBytesCap 0) := by
  constructor
  · exact (httpGet_cap_amended [7]).1 (by decide) (by decide)
  · have h := (httpGet_cap_amended (List.replicate (maxBytesCap + 1) 0)).2
      (by simp)
    rw [h, List.take_replicate]
    have hmin : min maxBytesCap (maxBytesCap + 1) = maxBytesCap := by omega
    rw [hmin]

theorem usersFind_insert_self (u : JitsiUsers) (j n : GoStr) :
    usersFind (usersInsert u j n) j = some n := by
  induction u with
  | nil => simp [usersInsert, usersFind]
  | cons p rest ih =>
    obtain ⟨k, v⟩ := p
    by_cases h : k = j
    · simp [usersInsert, usersFind, h]
    · simp [usersInsert, usersFind, h, ih]

theorem usersFind_insert_other (u : JitsiUsers) (j n k : GoStr) (hk : k ≠ j) :
    usersFind (usersInsert u j n) k = usersFind u k := by
  induction u with
  | nil => simp [usersInsert, usersFind, Ne.symm hk]
  | cons p rest ih =>
    obtain ⟨k2, v⟩ := p
    by_cases h : k2 = j
    · subst h
      simp [usersInsert, usersFind, Ne.symm hk]
    · by_cases h2 : k2 = k
      · simp [usersInsert, usersFind, h, h2, hk]
      · simp [usersInsert, usersFind, h, h2, ih]

/-- C8: a presence stanza with a non-empty display name, carrying a key
already in the membership table with a stored display name different from
the new one, updates the stored name in place, emits zero notices and
changes no other membership record. -/
theorem jitsi_rename_no_notice (users : JitsiUsers) (v : JitsiStanza) (kn : GoStr)
    (h1 : v.nick ≠ []) (h2 : v.jid ≠ []) (h3 : usersFind users v.jid = some kn)
    (h4 : kn ≠ v.nick) :
    jitsiStep users v = some (usersInsert users v.jid v.nick, []) ∧
    usersFind (usersInsert users v.jid v.nick) v.jid = some v.nick ∧
    (∀ k, k ≠ v.jid → usersFind (usersInsert users v.jid v.nick) k = usersFind users k) := by
  refine ⟨?_, usersFind_insert_self users v.jid v.nick,
    fun k hk => usersFind_insert_other users v.jid v.nick k hk⟩
  simp [jitsiStep, h1, h2, h3, h4]

/-- C8 witness: renaming the member with key [1] from the one-byte name
[2] to the one-byte name [3] yields the updated table and no notices. -/
theorem jitsi_rename_no_notice_witness :
    jitsiStep [([1], [2])] ⟨[], [3], [1]⟩ = some ([([1], [3])], []) := by
  have h := jitsi_rename_no_notice [([1], [2])] ⟨[], [3], [1]⟩ [2]
    (by decide) (by decide) (by decide) (by decide)
  exact h.1.trans (by decide)

/-- C1 counterexample: the table knows key [1] with stored name "a"; an
unavailable stanza for that key carrying the differing non-empty display
name "b" is consumed by the rename branch: the record is updated, not
removed, and no left notice is emitted, contradicting the claim that every
unavailable stanza with a known key removes the record and emits one left
notice. -/
theorem jitsi_unavailable_rename_counterexample :
    jitsiStep [([1], [97])] ⟨unavailableBytes, [98], [1]⟩ = some ([([1], [98])], []) ∧
    jitsiStep [([1], [97])] ⟨unavailableBytes, [98], [1]⟩ ≠
      some (usersErase [([1], [97])] [1], [JitsiNotice.left [97, 226, 128, 139]]) := by
  decide

/-- C1 amended: an unavailable stanza with a known key removes the record
and emits exactly one left notice rendering the obfuscated stored name,
PROVIDED the stanza does not also carry a non-empty display name different
from the stored one (such a stanza is consumed by the rename branch
instead); and from an empty table, a join stanza for an unseen key
followed by a nick-less unavailable stanza for the same key yields exactly
one arrived notice then one left notice and leaves the table empty. -/
theorem jitsi_unavailable_removes_amended :
    (∀ (users : JitsiUsers) (v : JitsiStanza) (kn : GoStr),
      v.typ = unavailableBytes → v.jid ≠ [] → usersFind users v.jid = some kn →
      kn ≠ [] → (v.nick = [] ∨ v.nick = kn) →
      ∃ z, obfuscateZWS kn = some z ∧
        jitsiStep users v = some (usersErase users v.jid, [JitsiNotice.left z])) ∧
    (∀ n j : GoStr, n ≠ [] → j ≠ [] →
      ∃ z, obfuscateZWS n = some z ∧
        jitsiRunSteps [] [⟨[], n, j⟩, ⟨unavailableBytes, [], j⟩] =
          some ([], [JitsiNotice.arrived z, JitsiNotice.left z])) := by
  constructor
  · intro users v kn ht hj hf hkn hnick
    cases kn with
    | nil => exact absurd rfl hkn
    | cons b rest =>
      refine ⟨b :: (zwsBytes ++ rest), rfl, ?_⟩
      rcases hnick with hn | hn
      · simp [jitsiStep, jitsiStepUnavail, hn, ht, hj, hf, obfuscateZWS]
      · simp [jitsiStep, jitsiStepUnavail, hn, ht, hj, hf, obfuscateZWS]
  · intro n j hn hj
    cases n with
    | nil => exact absurd rfl hn
    | cons b rest =>
      refine ⟨b :: (zwsBytes ++ rest), rfl, ?_⟩
      simp [jitsiRunSteps, jitsiStep, jitsiStepUnavail, hj, obfuscateZWS,
        usersFind, usersInsert, usersErase]

/-- C1 witness: joining with the one-character name "a" under key [106]
and then leaving produces exactly one arrived notice and one left notice,
in that order, and empties the table. -/
theorem jitsi_unavailable_removes_amended_witness :
    jitsiRunSteps [] [⟨[], [97], [106]⟩, ⟨unavailableBytes, [], [106]⟩] =
      some ([], [JitsiNotice.arrived [97, 226, 128, 139],
        JitsiNotice.left [97, 226, 128, 139]]) := by
  obtain ⟨z, hz, hr⟩ := jitsi_unavailable_removes_amended.2 [97] [106] (by decide) (by decide)
  have h0 : obfuscateZWS [97] = some [97, 226, 128, 139] := by decide
  have hz2 : z = [97, 226, 128, 139] := (Option.some.inj (h0.symm.trans hz)).symm
  rw [hz2] at hr
  exact hr
